import Mathlib

/-!
Verification of the resilience / adaptive-caching layer of max-mcp-railway.

Each JavaScript class relevant to the frozen claims is shallowly embedded:
pure logic becomes Lean functions, instance state becomes explicit record
passing, `Date.now()` becomes an explicit integer-millisecond argument, and
asynchronous operations become explicit outcome values.  JS `Map`s are
embedded as functions into `Option`, JS arrays as lists.
-/

namespace Spec2Proof

/-! ### Circuit breaker (src/unnamed/part_003, class CircuitBreaker) -/

/-- JS Math.ceil(a / b) for integers (b positive), as used for wait times. -/
def intCeilDiv (a b : ℤ) : ℤ := -(Int.ediv (-a) b)

inductive CBState
  | CLOSED
  | OPEN
  | HALF_OPEN
deriving DecidableEq, Repr

structure CBStats where
  totalCalls : ℕ
  totalFailures : ℕ
  totalSuccesses : ℕ
  circuitOpens : ℕ
deriving DecidableEq, Repr

structure CircuitBreaker where
  threshold : ℕ
  timeout : ℤ
  resetTimeout : ℤ
  state : CBState
  failures : ℕ
  successes : ℕ
  nextAttempt : ℤ
  lastFailureTime : Option ℤ
  stats : CBStats
deriving DecidableEq, Repr

/-- Constructor: `new CircuitBreaker(options)` at clock time `now`,
with the three options given explicitly. -/
def mkCircuitBreaker (threshold : ℕ) (timeout resetTimeout now : ℤ) : CircuitBreaker :=
  { threshold := threshold
    timeout := timeout
    resetTimeout := resetTimeout
    state := .CLOSED
    failures := 0
    successes := 0
    nextAttempt := now
    lastFailureTime := none
    stats := ⟨0, 0, 0, 0⟩ }

/-- `CircuitBreaker.onSuccess` at clock time `now`. -/
def onSuccess (cb : CircuitBreaker) (now : ℤ) : CircuitBreaker :=
  let cb1 := { cb with
    failures := 0
    successes := cb.successes + 1
    stats := { cb.stats with totalSuccesses := cb.stats.totalSuccesses + 1 } }
  let cb2 := if cb1.state = .HALF_OPEN then { cb1 with state := .CLOSED } else cb1
  match cb2.lastFailureTime with
  | some t =>
      if cb2.resetTimeout < now - t then
        { cb2 with successes := 1, lastFailureTime := none }
      else cb2
  | none => cb2

/-- `CircuitBreaker.onFailure` at clock time `now`. -/
def onFailure (cb : CircuitBreaker) (now : ℤ) : CircuitBreaker :=
  let cb1 := { cb with
    failures := cb.failures + 1
    stats := { cb.stats with totalFailures := cb.stats.totalFailures + 1 }
    lastFailureTime := some now }
  if cb1.state = .HALF_OPEN then
    { cb1 with
      state := .OPEN
      nextAttempt := now + cb1.timeout
      stats := { cb1.stats with circuitOpens := cb1.stats.circuitOpens + 1 } }
  else if cb1.threshold ≤ cb1.failures then
    { cb1 with
      state := .OPEN
      nextAttempt := now + cb1.timeout
      stats := { cb1.stats with circuitOpens := cb1.stats.circuitOpens + 1 } }
  else cb1

/-- Observable outcome of one `execute` call: either the CircuitOpenError was
thrown before the operation ran (with the wait time in seconds from the error
message), or the operation was invoked while the breaker was in `stateAtCall`
and succeeded or failed as `succeeded` says. -/
inductive ExecResult
  | rejected (waitTimeSec : ℤ)
  | invoked (stateAtCall : CBState) (succeeded : Bool)
deriving DecidableEq, Repr

/-- `CircuitBreaker.execute(operation, name)` at clock time `now`.  The opaque
async operation is represented by its outcome `opSucceeds`; it is consulted
only on the code path where the source invokes the operation. -/
def CircuitBreaker.execute (cb : CircuitBreaker) (now : ℤ) (opSucceeds : Bool) :
    ExecResult × CircuitBreaker :=
  let cb1 := { cb with stats := { cb.stats with totalCalls := cb.stats.totalCalls + 1 } }
  if cb1.state = .OPEN then
    if now < cb1.nextAttempt then
      (.rejected (intCeilDiv (cb1.nextAttempt - now) 1000), cb1)
    else
      let cb2 := { cb1 with state := .HALF_OPEN }
      if opSucceeds then (.invoked cb2.state true, onSuccess cb2 now)
      else (.invoked cb2.state false, onFailure cb2 now)
  else
    if opSucceeds then (.invoked cb1.state true, onSuccess cb1 now)
    else (.invoked cb1.state false, onFailure cb1 now)

/-- The success rate derived in `CircuitBreaker.getStatus` (as a rational,
before the string formatting): totalSuccesses / totalCalls * 100, or 0 when
no call was made. -/
def successRate (cb : CircuitBreaker) : ℚ :=
  if 0 < cb.stats.totalCalls then
    (cb.stats.totalSuccesses : ℚ) / (cb.stats.totalCalls : ℚ) * 100
  else 0

/-! ### Request deduplicator (src/unnamed/part_004, class RequestDeduplicator)

The `pending` JS Map is embedded as a function from keys to an optional
promise identifier; promises are identified by the order of their creation
(`nextId`).  The log `invoked` records every invocation of a `requestFn`
(pairing the dedup key with the promise the invocation produced), `returned`
records the promise each `dedupe` caller received, and `results` records the
settled outcome of each promise.  A run is a sequence of events: `call key`
(a `dedupe(key, requestFn)` call) and `settleEv p key o` (the promise `p`
created under `key` settles with outcome `o`, which runs the then/catch
cleanup handler `this.pending.delete(key)` attached in `dedupe`).  The settle
step acts only when `p` was actually created under `key` and has not settled
before, which is exactly when the corresponding handler can fire. -/

inductive DOutcome
  | ok (v : ℕ)
  | err (e : ℕ)
deriving DecidableEq, Repr

structure DedupState where
  pending : String → Option ℕ
  nextId : ℕ
  invoked : List (String × ℕ)
  returned : List (String × ℕ)
  results : ℕ → Option DOutcome
  statsTotal : ℕ
  statsDeduped : ℕ

/-- `new RequestDeduplicator()`. -/
def initDedup : DedupState :=
  { pending := fun _ => none
    nextId := 0
    invoked := []
    returned := []
    results := fun _ => none
    statsTotal := 0
    statsDeduped := 0 }

/-- `RequestDeduplicator.dedupe(key, requestFn)`: returns the promise handed
to the caller together with the successor state. -/
def dedupeCall (s : DedupState) (key : String) : ℕ × DedupState :=
  let s1 := { s with statsTotal := s.statsTotal + 1 }
  match s1.pending key with
  | some p =>
      (p, { s1 with
            statsDeduped := s1.statsDeduped + 1
            returned := (key, p) :: s1.returned })
  | none =>
      let p := s1.nextId
      (p, { s1 with
            pending := fun k => if k = key then some p else s1.pending k
            nextId := p + 1
            invoked := (key, p) :: s1.invoked
            returned := (key, p) :: s1.returned })

/-- Settlement of promise `p` (created under `key`) with outcome `o`: records
the outcome and runs the cleanup handler, which deletes the `key` entry of
the pending map (success and failure handlers both do). -/
def settle (s : DedupState) (p : ℕ) (key : String) (o : DOutcome) : DedupState :=
  if (key, p) ∈ s.invoked ∧ s.results p = none then
    { s with
      results := fun q => if q = p then some o else s.results q
      pending := fun k => if k = key then none else s.pending k }
  else s

inductive DEvent
  | call (key : String)
  | settleEv (p : ℕ) (key : String) (o : DOutcome)
deriving DecidableEq, Repr

def dstep (s : DedupState) : DEvent → DedupState
  | .call k => (dedupeCall s k).2
  | .settleEv p k o => settle s p k o

def drun (s : DedupState) (evs : List DEvent) : DedupState := evs.foldl dstep s

/-- Number of `requestFn` invocations recorded for key `k`. -/
def invCount (s : DedupState) (k : String) : ℕ :=
  (s.invoked.filter (fun e => e.1 == k)).length

/-- Well-formedness of a deduplicator state (holds in every reachable state):
pending promises were invoked and are unsettled; every invoked promise is
settled or still pending under its key; promise ids are below `nextId`;
ids at or above `nextId` are fresh; a promise id determines its key. -/
def DedupWF (s : DedupState) : Prop :=
  (∀ k q, s.pending k = some q → (k, q) ∈ s.invoked ∧ s.results q = none) ∧
  (∀ k q, (k, q) ∈ s.invoked → s.results q ≠ none ∨ s.pending k = some q) ∧
  (∀ k q, (k, q) ∈ s.invoked → q < s.nextId) ∧
  (∀ q, s.nextId ≤ q → s.results q = none) ∧
  (∀ k kk q, (k, q) ∈ s.invoked → (kk, q) ∈ s.invoked → k = kk)

/-- Does this event settle promise `p`? -/
def isSettleOf (p : ℕ) : DEvent → Bool
  | .settleEv q _ _ => q == p
  | .call _ => false

/-! ### Embedding queue (src/lib/embedding-queue.js, class EmbeddingQueue)

Queue items are represented by their enqueue timestamps (the `text`,
`options`, `resolve` and `reject` fields play no role in the flush-trigger
timing; all items here share one options group, so `groupByOptions` yields a
single group and `processBatch` settles the whole spliced batch at once).
`timer` is the absolute wall-clock time at which the pending `setTimeout`
will fire (`none` when no timer is scheduled), and `flushed` logs each
processed batch with its processing time.  Steps happen on the single
reactor thread, so `this.processing` is false whenever `add` runs and the
splice-process-reschedule sequence of `processQueue` is atomic. -/

structure EmbeddingQueue where
  batchSize : ℕ
  maxWait : ℤ
  queue : List ℤ
  timer : Option ℤ
  flushed : List (ℤ × List ℤ)
deriving DecidableEq, Repr

/-- `new EmbeddingQueue(options)`: `options.batchSize || 96` and
`options.maxWait || 100` (so a zero/absent option falls back). -/
def mkEmbeddingQueue (batchSize : ℕ) (maxWait : ℤ) : EmbeddingQueue :=
  { batchSize := if batchSize = 0 then 96 else batchSize
    maxWait := if maxWait = 0 then 100 else maxWait
    queue := []
    timer := none
    flushed := [] }

/-- `EmbeddingQueue.processQueue` at time `now`, with fuel to express the
recursion through `scheduleProcessing` (the queue shrinks by `batchSize ≥ 1`
items per round; the fuel is instantiated with the queue length). -/
def processLoop : ℕ → EmbeddingQueue → ℤ → EmbeddingQueue
  | 0, s, _ => s
  | fuel + 1, s, now =>
      if s.queue = [] then s
      else
        let batch := s.queue.take s.batchSize
        let rest := s.queue.drop s.batchSize
        let s1 := { s with queue := rest, flushed := s.flushed ++ [(now, batch)] }
        if rest = [] then s1
        else
          -- tail of processQueue: scheduleProcessing (clears the timer first)
          if s1.batchSize ≤ rest.length then processLoop fuel { s1 with timer := none } now
          else { s1 with timer := some (now + s1.maxWait) }

def processQueue (s : EmbeddingQueue) (now : ℤ) : EmbeddingQueue :=
  processLoop s.queue.length s now

/-- `EmbeddingQueue.scheduleProcessing` at time `now`: clears any existing
timer, then either processes immediately (queue has reached `batchSize`) or
arms the timer for `maxWait` from `now`. -/
def scheduleProcessing (s : EmbeddingQueue) (now : ℤ) : EmbeddingQueue :=
  let s1 := { s with timer := none }
  if s1.batchSize ≤ s1.queue.length then processQueue s1 now
  else { s1 with timer := some (now + s1.maxWait) }

/-- `EmbeddingQueue.add(text, options)` at time `now`: pushes the item and,
since `this.processing` is false between reactor turns, always calls
`scheduleProcessing`. -/
def addItem (s : EmbeddingQueue) (now : ℤ) : EmbeddingQueue :=
  scheduleProcessing { s with queue := s.queue ++ [now] } now

/-- The armed `setTimeout` fires (at the scheduled absolute time) and runs
`processQueue`. -/
def fireTimer (s : EmbeddingQueue) : EmbeddingQueue :=
  match s.timer with
  | none => s
  | some t => processQueue { s with timer := none } t

/-! ### Adaptive cache manager (src/unnamed/part_006, class AdaptiveCacheManager)

Floats are embedded as rationals.  `Math.log10` is transcendental, so
`getAdaptiveTTL` takes the log-base-10 function as an explicit parameter;
every property proved below holds for an arbitrary such function, hence in
particular for the real `Math.log10`.  The `accessPatterns` JS Map is an
association list keyed by `cacheType:key` strings. -/

structure AccessPattern where
  count : ℕ
  lastAccess : ℤ
  frequency : ℚ
  /-- The `created` property read by `trackAccess` via
  `pattern.created || Date.now()`.  No code path ever assigns it, so it is
  `none` in every reachable pattern. -/
  created : Option ℤ
deriving DecidableEq, Repr

/-- `this.adaptiveConfig` of the constructor:
minMultiplier 0.5, maxMultiplier 3.0, decayFactor 0.95. -/
def adaptiveMinMultiplier : ℚ := 1 / 2
def adaptiveMaxMultiplier : ℚ := 3
def adaptiveDecayFactor : ℚ := 19 / 20

/-- JS `Math.round` (round half toward positive infinity). -/
def jsRound (q : ℚ) : ℤ := ⌊q + 1 / 2⌋

/-- `accessPatterns.get(patternKey)` on an association list. -/
def lookupPattern (ps : List (String × AccessPattern)) (k : String) :
    Option AccessPattern :=
  (ps.find? (fun e => e.1 == k)).map (fun e => e.2)

/-- `accessPatterns.set(patternKey, pattern)`: replace an existing entry or
append a new one. -/
def setPattern (ps : List (String × AccessPattern)) (k : String)
    (v : AccessPattern) : List (String × AccessPattern) :=
  if (ps.find? (fun e => e.1 == k)).isSome then
    ps.map (fun e => if e.1 == k then (k, v) else e)
  else ps ++ [(k, v)]

/-- `AdaptiveCacheManager.trackAccess(cacheType, key)` at time `now`, acting
on the pattern table with `patternKey = cacheType + ":" + key` already
concatenated by the caller.  The defaulted object literal sets `count`,
`lastAccess` and `frequency` but not `created`, and the update never assigns
`created` either, so `pattern.created || Date.now()` always falls back to
`Date.now()` and `hoursSinceCreation` is always 0. -/
def trackAccess (ps : List (String × AccessPattern)) (patternKey : String)
    (now : ℤ) : List (String × AccessPattern) :=
  let pat := (lookupPattern ps patternKey).getD
    { count := 0, lastAccess := now, frequency := 0, created := none }
  let count := pat.count + 1
  let hoursSinceCreation : ℚ := ((now : ℚ) - ((pat.created.getD now : ℤ) : ℚ)) / 3600000
  let frequency := (count : ℚ) / max hoursSinceCreation 1
  setPattern ps patternKey
    { pat with count := count, lastAccess := now, frequency := frequency }

/-- `AdaptiveCacheManager.updatePatterns()` (the periodic sweep) at time
`now`: drop patterns stale for more than 24 h, multiply the remaining
frequencies by the decay factor, drop those that fall below 0.01. -/
def updatePatterns (ps : List (String × AccessPattern)) (now : ℤ) :
    List (String × AccessPattern) :=
  ps.filterMap (fun e =>
    if 24 * 60 * 60 * 1000 < now - e.2.lastAccess then none
    else
      let f := e.2.frequency * adaptiveDecayFactor
      if f < 1 / 100 then none
      else some (e.1, { e.2 with frequency := f }))

/-- `AdaptiveCacheManager.getAdaptiveTTL(cacheType, key)` with the
namespace's base TTL (`this.caches[cacheType]?.options.stdTTL || 300`)
passed in, the relevant access pattern looked up, and `Math.log10` supplied
as `log10`. -/
def getAdaptiveTTL (log10 : ℚ → ℚ) (baseTTL : ℤ)
    (pattern : Option AccessPattern) : ℤ :=
  match pattern with
  | none => baseTTL
  | some pat =>
      if pat.frequency = 0 then baseTTL
      else
        let frequencyScore := log10 (pat.frequency + 1)
        let multiplier := 1 + frequencyScore * (1 / 2)
        let boundedMultiplier :=
          max adaptiveMinMultiplier (min adaptiveMaxMultiplier multiplier)
        jsRound ((baseTTL : ℚ) * boundedMultiplier)

/-! ### Metrics aggregator (src/lib/metrics-aggregator.js, class MetricsAggregator)

The `timeSeries` JS Map is a function from series keys to an optional list
of data points.  `getMetricKey(name, tags)` is the series name when `tags`
is empty (the instrumented call sites in this repository pass no tags), so
samples are keyed by metric name here.  `addMetric(name, value, timestamp)`
takes the wall clock `now` separately because `cleanupOldData` calls
`Date.now()` itself while the sample keeps the `timestamp` argument. -/

structure MetricPoint where
  value : ℤ
  timestamp : ℤ
deriving DecidableEq, Repr

/-- `this.aggregationIntervals['24h']`, the retention horizon in ms. -/
def retention24h : ℤ := 86400000

/-- `MetricsAggregator.cleanupOldData(key)` at clock time `now`: filters the
series to samples strictly newer than `now - 24h`, rewriting the map only
when something was dropped. -/
def cleanupOldData (ts : String → Option (List MetricPoint)) (key : String)
    (now : ℤ) : String → Option (List MetricPoint) :=
  match ts key with
  | none => ts
  | some data =>
      let cutoff := now - retention24h
      let filtered := data.filter (fun p => cutoff < p.timestamp)
      if filtered.length < data.length then
        fun k => if k = key then some filtered else ts k
      else ts

/-- `MetricsAggregator.addMetric(name, value, timestamp)` at clock time
`now` (with the default empty tag set, so the series key is `name`):
create-if-absent, push the sample, then clean up that series. -/
def addMetric (ts : String → Option (List MetricPoint)) (name : String)
    (value timestamp now : ℤ) : String → Option (List MetricPoint) :=
  let data := (ts name).getD []
  let ts1 := fun k => if k = name then some (data ++ [⟨value, timestamp⟩]) else ts k
  cleanupOldData ts1 name now

/-- The retention property claimed for the metrics store: at clock time
`now`, no held sample is older than the 24 h horizon. -/
def retentionOK (ts : String → Option (List MetricPoint)) (now : ℤ) : Prop :=
  ∀ k data, ts k = some data → ∀ p ∈ data, now - retention24h < p.timestamp

/-! ### Connection manager (src/lib/connection-manager.js, class ConnectionManager)

`retryConfig` is `{ retries: 3, retryDelay: 1000, retryCondition: e =>
!e.response || e.response.status >= 500 }`.  A JS error either carries no
`response` property (network errors, and every plain `new Error(...)` such
as the rate-limit rejection) or an HTTP response with a status.  The opaque
async operation is a function from the invocation index to an outcome, so a
flaky operation can fail on early attempts and succeed later.  Wall-clock
time advances by exactly the backoff delay between attempts (operation
execution time does not matter for any property proved here). -/

inductive JsErrorShape
  | noResponse
  | response (status : ℕ)
deriving DecidableEq, Repr

/-- Errors observable from `executeWithRetry`: the rate-limit rejection
(`new Error("Rate limit exceeded. Wait N seconds.")`, carrying N), or an
error thrown by the wrapped operation. -/
inductive CMError
  | rateLimit (waitSec : ℤ)
  | opError (e : JsErrorShape)
deriving DecidableEq, Repr

/-- `retryConfig.retryCondition`: retry when the error has no response or a
5xx status.  A rate-limit rejection is a plain `Error` without a `response`
property, so it satisfies the condition. -/
def retryCondition : CMError → Bool
  | .rateLimit _ => true
  | .opError .noResponse => true
  | .opError (.response s) => 500 ≤ s

structure RateLimiter where
  requests : ℕ
  resetTime : ℤ
  maxRequests : ℕ
deriving DecidableEq, Repr

/-- `ConnectionManager.checkRateLimit` at clock time `now`: reset the window
if it has passed, then either throw the rate-limit error (returning the wait
time it names, in seconds) or pass. -/
def checkRateLimit (lim : RateLimiter) (now : ℤ) : RateLimiter × Option ℤ :=
  let lim1 :=
    if lim.resetTime < now then { lim with requests := 0, resetTime := now + 60000 }
    else lim
  if lim1.maxRequests ≤ lim1.requests then
    (lim1, some (intCeilDiv (lim1.resetTime - now) 1000))
  else (lim1, none)

/-- One iteration body of the `executeWithRetry` loop for the 'cohere'
connection (the one with a rate limiter): rate-limit check, then the
operation, then `updateRateLimit` on success.  Returns the outcome, the
limiter, and the operation-invocation count. -/
def attemptOnce (op : ℕ → Except JsErrorShape ℕ) (lim : RateLimiter) (t : ℤ)
    (opCalls : ℕ) : Except CMError ℕ × RateLimiter × ℕ :=
  match checkRateLimit lim t with
  | (lim1, some w) => (.error (.rateLimit w), lim1, opCalls)
  | (lim1, none) =>
      match op opCalls with
      | .ok v => (.ok v, { lim1 with requests := lim1.requests + 1 }, opCalls + 1)
      | .error je => (.error (.opError je), lim1, opCalls + 1)

instance : DecidableEq (Except CMError ℕ)
  | .ok a, .ok b =>
      if h : a = b then .isTrue (congrArg Except.ok h)
      else .isFalse (fun hh => h (Except.ok.inj hh))
  | .ok _, .error _ => .isFalse (fun hh => Except.noConfusion hh)
  | .error _, .ok _ => .isFalse (fun hh => Except.noConfusion hh)
  | .error e, .error f =>
      if h : e = f then .isTrue (congrArg Except.error h)
      else .isFalse (fun hh => h (Except.error.inj hh))

structure EwrResult where
  result : Except CMError ℕ
  limiter : RateLimiter
  opCalls : ℕ
  attempts : ℕ
deriving DecidableEq, Repr

/-- The `for (attempt = 0; attempt <= retries; attempt++)` loop of
`executeWithRetry('cohere', op)`: `remaining = retries - attempt` attempts
may still follow the current one; on a retryable failure with attempts left,
wait `retryDelay * 2^attempt` ms and run the next attempt. -/
def ewrGo (op : ℕ → Except JsErrorShape ℕ) :
    ℕ → ℕ → RateLimiter → ℤ → ℕ → ℕ → EwrResult
  | remaining, attempt, lim, t, opCalls, attempts =>
      match attemptOnce op lim t opCalls with
      | (.ok v, lim1, oc) => ⟨.ok v, lim1, oc, attempts + 1⟩
      | (.error e, lim1, oc) =>
          match remaining with
          | 0 => ⟨.error e, lim1, oc, attempts + 1⟩
          | r + 1 =>
              if retryCondition e then
                ewrGo op r (attempt + 1) lim1 (t + 1000 * 2 ^ attempt) oc (attempts + 1)
              else ⟨.error e, lim1, oc, attempts + 1⟩

/-- `executeWithRetry('cohere', operation)` starting at clock time `t`:
`retries = 3`, so up to 4 attempts. -/
def executeWithRetryCohere (lim : RateLimiter) (t : ℤ)
    (op : ℕ → Except JsErrorShape ℕ) : EwrResult :=
  ewrGo op 3 0 lim t 0 0

/-- The `executeWithRetry` loop for a connection without a rate limiter
(such as 'mcp'): result, operation-invocation count, attempt count. -/
def ewrPlainGo (op : ℕ → Except JsErrorShape ℕ) :
    ℕ → ℕ → ℤ → ℕ → ℕ → Except CMError ℕ × ℕ × ℕ
  | remaining, attempt, t, opCalls, attempts =>
      match op opCalls with
      | .ok v => (.ok v, opCalls + 1, attempts + 1)
      | .error je =>
          match remaining with
          | 0 => (.error (.opError je), opCalls + 1, attempts + 1)
          | r + 1 =>
              if retryCondition (.opError je) then
                ewrPlainGo op r (attempt + 1) (t + 1000 * 2 ^ attempt)
                  (opCalls + 1) (attempts + 1)
              else (.error (.opError je), opCalls + 1, attempts + 1)

/-- `executeWithRetry('mcp', operation)` starting at clock time `t`. -/
def executeWithRetryMcp (t : ℤ) (op : ℕ → Except JsErrorShape ℕ) :
    Except CMError ℕ × ℕ × ℕ :=
  ewrPlainGo op 3 0 t 0 0

def exceptOk : Except CMError ℕ → Bool
  | .ok _ => true
  | .error _ => false

/-- Observable outcome of one `/api/mcp/*` request handler call
(src/unnamed/part_000:506-558): `circuitBreakers.mcp.execute` wraps the
deduplicated `connectionManager.executeWithRetry('mcp', ...)` chain, so the
breaker sees exactly one combined outcome per logical call; the retry loop
with its per-attempt outcomes runs inside.  A fresh dedup key is assumed
(the deduplicator passes the factory's outcome through unchanged). -/
structure HandlerResult where
  res : ExecResult
  breaker : CircuitBreaker
  opCalls : ℕ
  attempts : ℕ
deriving DecidableEq, Repr

def mcpHandlerCall (cb : CircuitBreaker) (now : ℤ)
    (op : ℕ → Except JsErrorShape ℕ) : HandlerResult :=
  let inner := executeWithRetryMcp now op
  let e := cb.execute now (exceptOk inner.1)
  match e.1 with
  | .rejected w => ⟨.rejected w, e.2, 0, 0⟩
  | .invoked st b => ⟨.invoked st b, e.2, inner.2.1, inner.2.2⟩

/-! ### Weaviate connection pool (src/unnamed/part_006, class WeaviateConnectionPool)

Pool slots are identified by their index; the wrapped client object itself
is opaque and irrelevant to slot selection.  `getConnection` returns the
selected slot index and whether the caller got exclusive use (a real
`release` versus the no-op `release` of the saturated fallback). -/

structure PoolConn where
  inUse : Bool
  lastUsed : ℤ
  requestCount : ℕ
deriving DecidableEq, Repr

structure WPool where
  pool : List PoolConn
  currentIndex : ℕ
  totalRequests : ℕ
deriving DecidableEq, Repr

/-- The pool right after `initializePool()` with `poolSize` fresh
connections created at time `now`. -/
def mkWPool (poolSize : ℕ) (now : ℤ) : WPool :=
  { pool := List.replicate poolSize ⟨false, now, 0⟩
    currentIndex := 0
    totalRequests := 0 }

/-- `WeaviateConnectionPool.getConnection()` at time `now`: scan `poolSize`
slots round-robin from `currentIndex` for a free one; mark and return it
with an exclusive release, else fall back to the slot at `currentIndex`
without exclusivity. -/
def getConnection (s : WPool) (now : ℤ) : (ℕ × Bool) × WPool :=
  let s0 := { s with totalRequests := s.totalRequests + 1 }
  let len := s0.pool.length
  match (List.range len).find?
      (fun i => (((s0.pool.get? ((s0.currentIndex + i) % len)).map
        (fun c => !c.inUse)).getD false)) with
  | some i =>
      let index := (s0.currentIndex + i) % len
      let conn := s0.pool.getD index ⟨false, 0, 0⟩
      ((index, true),
       { s0 with
         pool := s0.pool.set index
           { conn with inUse := true, lastUsed := now, requestCount := conn.requestCount + 1 }
         currentIndex := (index + 1) % len })
  | none =>
      let index := s0.currentIndex
      let conn := s0.pool.getD index ⟨false, 0, 0⟩
      ((index, false),
       { s0 with
         pool := s0.pool.set index { conn with requestCount := conn.requestCount + 1 }
         currentIndex := (s0.currentIndex + 1) % len })

/-- `WeaviateConnectionPool.releaseConnection(index)`. -/
def releaseConnection (s : WPool) (index : ℕ) : WPool :=
  match s.pool.get? index with
  | some conn => { s with pool := s.pool.set index { conn with inUse := false } }
  | none => s

/-! ### Generic circuit-breaker lemmas -/

lemma execute_open_rejected (cb : CircuitBreaker) (now : ℤ) (b : Bool)
    (hs : cb.state = .OPEN) (ht : now < cb.nextAttempt) :
    cb.execute now b =
      (.rejected (intCeilDiv (cb.nextAttempt - now) 1000),
       { cb with stats := { cb.stats with totalCalls := cb.stats.totalCalls + 1 } }) := by
  simp [CircuitBreaker.execute, hs, ht]

lemma onSuccess_state_closed (cb : CircuitBreaker) (now : ℤ)
    (hs : cb.state = .CLOSED ∨ cb.state = .HALF_OPEN) :
    (onSuccess cb now).state = .CLOSED ∧ (onSuccess cb now).failures = 0 := by
  obtain ⟨th, ti, rt, st, f, su, na, lf, stats⟩ := cb
  simp only at hs
  rcases hs with hs | hs <;> subst hs <;> cases lf <;>
    (simp [onSuccess] <;> try (split <;> simp))

lemma execute_open_elapsed_success (cb : CircuitBreaker) (now : ℤ)
    (hs : cb.state = .OPEN) (ht : cb.nextAttempt ≤ now) :
    (cb.execute now true).1 = .invoked .HALF_OPEN true ∧
    (cb.execute now true).2.state = .CLOSED ∧
    (cb.execute now true).2.failures = 0 := by
  have hnot : ¬ now < cb.nextAttempt := not_lt.mpr ht
  have h := onSuccess_state_closed
    { cb with
      stats := { cb.stats with totalCalls := cb.stats.totalCalls + 1 }
      state := .HALF_OPEN } now (Or.inr rfl)
  simp [CircuitBreaker.execute, hs, hnot]
  exact h

lemma onSuccess_stats_frame (cb : CircuitBreaker) (now : ℤ) :
    (onSuccess cb now).stats.totalCalls = cb.stats.totalCalls ∧
    (onSuccess cb now).stats.totalSuccesses = cb.stats.totalSuccesses + 1 := by
  obtain ⟨th, ti, rt, st, f, su, na, lf, stats⟩ := cb
  cases st <;> cases lf <;> (simp [onSuccess] <;> try (split <;> simp))

lemma onFailure_stats_frame (cb : CircuitBreaker) (now : ℤ) :
    (onFailure cb now).stats.totalCalls = cb.stats.totalCalls ∧
    (onFailure cb now).stats.totalSuccesses = cb.stats.totalSuccesses := by
  obtain ⟨th, ti, rt, st, f, su, na, lf, stats⟩ := cb
  cases st <;> (simp [onFailure] <;> try (split <;> simp))

lemma onFailure_failures (cb : CircuitBreaker) (now : ℤ) :
    (onFailure cb now).failures = cb.failures + 1 := by
  obtain ⟨th, ti, rt, st, f, su, na, lf, stats⟩ := cb
  cases st <;> (simp [onFailure] <;> try (split <;> simp))

/-! ### Deduplicator invariants -/

lemma dedupWF_init : DedupWF initDedup := by
  refine ⟨?_, ?_, ?_, ?_, ?_⟩ <;> simp [initDedup]

lemma dedupWF_call (s : DedupState) (k : String) (hwf : DedupWF s) :
    DedupWF (dedupeCall s k).2 := by
  obtain ⟨h1, h2, h3, h4, h5⟩ := hwf
  cases hk : s.pending k with
  | some p =>
      simp only [dedupeCall, hk]
      exact ⟨h1, h2, h3, h4, h5⟩
  | none =>
      simp only [dedupeCall, hk, DedupWF]
      refine ⟨?_, ?_, ?_, ?_, ?_⟩
      · intro kk q hq
        by_cases hkk : kk = k
        · subst hkk
          simp only [if_pos rfl] at hq
          obtain rfl : s.nextId = q := by injection hq
          exact ⟨List.mem_cons_self _ _, h4 _ le_rfl⟩
        · simp only [if_neg hkk] at hq
          exact ⟨List.mem_cons_of_mem _ (h1 kk q hq).1, (h1 kk q hq).2⟩
      · intro kk q hq
        rcases List.mem_cons.mp hq with hq | hq
        · obtain ⟨rfl, rfl⟩ : kk = k ∧ q = s.nextId := by
            constructor <;> injection hq
          right
          simp
        · rcases h2 kk q hq with hres | hpen
          · exact Or.inl hres
          · right
            have hkk : ¬ kk = k := by
              intro h
              subst h
              rw [hk] at hpen
              exact Option.noConfusion hpen
            simpa [hkk] using hpen
      · intro kk q hq
        rcases List.mem_cons.mp hq with hq | hq
        · obtain rfl : q = s.nextId := by injection hq
          exact Nat.lt_succ_self _
        · exact Nat.lt_succ_of_lt (h3 kk q hq)
      · intro q hq
        exact h4 q (Nat.le_of_succ_le hq)
      · intro ka kb q hq1 hq2
        rcases List.mem_cons.mp hq1 with hq1 | hq1 <;>
          rcases List.mem_cons.mp hq2 with hq2 | hq2
        · injection hq1 with e1 e2
          injection hq2 with e3 e4
          rw [e1, e3]
        · injection hq1 with e1 e2
          subst e2
          exact absurd (h3 _ _ hq2) (lt_irrefl _)
        · injection hq2 with e3 e4
          subst e4
          exact absurd (h3 _ _ hq1) (lt_irrefl _)
        · exact h5 ka kb q hq1 hq2

lemma dedupWF_settle (s : DedupState) (p : ℕ) (k : String) (o : DOutcome)
    (hwf : DedupWF s) : DedupWF (settle s p k o) := by
  obtain ⟨h1, h2, h3, h4, h5⟩ := hwf
  unfold settle
  split
  case isFalse => exact ⟨h1, h2, h3, h4, h5⟩
  case isTrue hg =>
    obtain ⟨hin, hres⟩ := hg
    refine ⟨?_, ?_, ?_, ?_, ?_⟩
    · intro kk q hq
      simp only at hq
      by_cases hkk : kk = k
      · rw [if_pos hkk] at hq
        exact Option.noConfusion hq
      · rw [if_neg hkk] at hq
        refine ⟨(h1 kk q hq).1, ?_⟩
        have hqp : q ≠ p := by
          intro h
          subst h
          exact hkk (h5 kk k q (h1 kk q hq).1 hin)
        simp only [if_neg hqp]
        exact (h1 kk q hq).2
    · intro kk q hq
      simp only at hq ⊢
      by_cases hqp : q = p
      · subst hqp
        left
        simp
      · rcases h2 kk q hq with hr | hp
        · left
          simpa [hqp] using hr
        · by_cases hkk : kk = k
          · subst hkk
            exfalso
            rcases h2 kk p hin with hr | hpp
            · exact hr hres
            · rw [hp] at hpp
              exact hqp (by injection hpp)
          · right
            simp [hkk, hp]
    · exact h3
    · intro q hq
      simp only
      have hqp : q ≠ p := by
        intro h
        subst h
        exact absurd (h3 k q hin) (not_lt.mpr hq)
      simp only [if_neg hqp]
      exact h4 q hq
    · exact h5

lemma dedupWF_step (s : DedupState) (e : DEvent) (hwf : DedupWF s) :
    DedupWF (dstep s e) := by
  cases e with
  | call k => exact dedupWF_call s k hwf
  | settleEv p k o => exact dedupWF_settle s p k o hwf

lemma dedupWF_run (evs : List DEvent) (s : DedupState) (hwf : DedupWF s) :
    DedupWF (drun s evs) := by
  induction evs generalizing s with
  | nil => exact hwf
  | cons e evs ih => exact ih (dstep s e) (dedupWF_step s e hwf)

lemma window_step (s : DedupState) (K : String) (p : ℕ) (e : DEvent)
    (hwf : DedupWF s) (hp : s.pending K = some p) (hne : isSettleOf p e = false) :
    (dstep s e).pending K = some p ∧
    invCount (dstep s e) K = invCount s K ∧
    (∀ q, (K, q) ∈ (dstep s e).returned → (K, q) ∈ s.returned ∨ q = p) := by
  obtain ⟨h1, h2, h3, h4, h5⟩ := hwf
  cases e with
  | call k =>
      simp only [dstep]
      cases hk : s.pending k with
      | some pq =>
          simp only [dedupeCall, hk]
          refine ⟨hp, rfl, ?_⟩
          intro q hq
          rcases List.mem_cons.mp hq with hq | hq
          · injection hq with e1 e2
            subst e1
            rw [hp] at hk
            injection hk with e3
            right
            rw [e2]
            exact e3.symm
          · exact Or.inl hq
      | none =>
          have hkK : ¬ K = k := by
            intro h
            subst h
            rw [hp] at hk
            exact Option.noConfusion hk
          simp only [dedupeCall, hk]
          refine ⟨by simpa [hkK] using hp, ?_, ?_⟩
          · simp only [invCount, List.filter_cons]
            have : ((k, s.nextId).1 == K) = false := by
              simpa using fun h => hkK h.symm
            simp [this]
          · intro q hq
            rcases List.mem_cons.mp hq with hq | hq
            · exact absurd (by injection hq) hkK
            · exact Or.inl hq
  | settleEv q k o =>
      have hqp : ¬ q = p := by simpa [isSettleOf] using hne
      simp only [dstep, settle]
      split
      case isFalse => exact ⟨hp, rfl, fun _ h => Or.inl h⟩
      case isTrue hg =>
        obtain ⟨hin, hres⟩ := hg
        have hkK : ¬ K = k := by
          intro h
          subst h
          rcases h2 K q hin with hr | hpp
          · exact hr hres
          · rw [hp] at hpp
            injection hpp with e
            exact hqp e.symm
        refine ⟨?_, rfl, fun _ h => Or.inl h⟩
        simpa [hkK] using hp

lemma window_run (K : String) (p : ℕ) (evs : List DEvent) (s : DedupState)
    (hwf : DedupWF s) (hp : s.pending K = some p)
    (hne : ∀ e ∈ evs, isSettleOf p e = false) :
    (drun s evs).pending K = some p ∧
    invCount (drun s evs) K = invCount s K ∧
    (∀ q, (K, q) ∈ (drun s evs).returned → (K, q) ∈ s.returned ∨ q = p) := by
  induction evs generalizing s with
  | nil => exact ⟨hp, rfl, fun _ h => Or.inl h⟩
  | cons e evs ih =>
      have hstep := window_step s K p e hwf hp (hne e (List.mem_cons_self _ _))
      have hwf1 := dedupWF_step s e hwf
      have hrest := ih (dstep s e) hwf1 hstep.1
        (fun x hx => hne x (List.mem_cons_of_mem _ hx))
      refine ⟨hrest.1, hrest.2.1.trans hstep.2.1, ?_⟩
      intro q hq
      rcases hrest.2.2 q hq with hq1 | hq1
      · exact hstep.2.2 q hq1
      · exact Or.inr hq1

/-- Claim C1: for a breaker built with threshold 3 and timeout 1000 ms, three
consecutive failed executions leave the breaker OPEN; while OPEN, any call
before the cool-down elapses is rejected with the circuit-open error and the
operation is not invoked (the result is `rejected`, which the `execute`
embedding produces without consulting the operation outcome); the first call
at or after 1000 ms later invokes the operation in HALF_OPEN state, and a
success yields CLOSED with the consecutive-failure count reset to 0. -/
theorem c1_circuit_breaker_lifecycle (rT t0 t1 t2 t3 : ℤ) :
    (((mkCircuitBreaker 3 1000 rT t0).execute t1 false).1 = .invoked .CLOSED false) ∧
    ((((mkCircuitBreaker 3 1000 rT t0).execute t1 false).2.execute t2 false).1 =
      .invoked .CLOSED false) ∧
    (((((mkCircuitBreaker 3 1000 rT t0).execute t1 false).2.execute t2 false).2.execute
        t3 false).1 = .invoked .CLOSED false) ∧
    (((((mkCircuitBreaker 3 1000 rT t0).execute t1 false).2.execute t2 false).2.execute
        t3 false).2.state = .OPEN) ∧
    (∀ t b, t < t3 + 1000 →
      ∃ w, ((((((mkCircuitBreaker 3 1000 rT t0).execute t1 false).2.execute t2
        false).2.execute t3 false).2.execute t b).1 = .rejected w)) ∧
    (∀ t, t3 + 1000 ≤ t →
      ((((((mkCircuitBreaker 3 1000 rT t0).execute t1 false).2.execute t2
          false).2.execute t3 false).2.execute t true).1 = .invoked .HALF_OPEN true ∧
       ((((((mkCircuitBreaker 3 1000 rT t0).execute t1 false).2.execute t2
          false).2.execute t3 false).2.execute t true).2.state = .CLOSED ∧
       ((((((mkCircuitBreaker 3 1000 rT t0).execute t1 false).2.execute t2
          false).2.execute t3 false).2.execute t true).2.failures = 0)))) := by
  have hcb3 : ((((mkCircuitBreaker 3 1000 rT t0).execute t1 false).2.execute t2
      false).2.execute t3 false).2 =
      { threshold := 3, timeout := 1000, resetTimeout := rT, state := .OPEN,
        failures := 3, successes := 0, nextAttempt := t3 + 1000,
        lastFailureTime := some t3, stats := ⟨3, 3, 0, 1⟩ } := rfl
  refine ⟨rfl, rfl, rfl, ?_, ?_, ?_⟩
  · rw [hcb3]
  · intro t b ht
    rw [hcb3]
    exact ⟨_, by rw [execute_open_rejected _ t b rfl ht]⟩
  · intro t ht
    rw [hcb3]
    exact execute_open_elapsed_success _ t rfl ht

/-- Witness for C1 at concrete times: construction at 0, failures at 1, 2, 3,
a rejected call at 500 < 1003, and a successful probe at 1003. -/
theorem c1_circuit_breaker_lifecycle_witness :
    (((mkCircuitBreaker 3 1000 120000 0).execute 1 false).1 = .invoked .CLOSED false) ∧
    (∃ w, ((((((mkCircuitBreaker 3 1000 120000 0).execute 1 false).2.execute 2
      false).2.execute 3 false).2.execute 500 true).1 = .rejected w)) ∧
    (((((((mkCircuitBreaker 3 1000 120000 0).execute 1 false).2.execute 2
      false).2.execute 3 false).2.execute 1003 true).2.state = .CLOSED)) := by
  have h := c1_circuit_breaker_lifecycle 120000 0 1 2 3
  exact ⟨h.1, h.2.2.2.2.1 500 true (by decide), (h.2.2.2.2.2 1003 (by decide)).2.1⟩

/-- Claim C10: every `execute` call increments the lifetime `totalCalls`
counter, including calls rejected while the breaker is OPEN (which never run
the operation); hence a rejected call leaves `totalSuccesses` unchanged while
growing the denominator of the derived success rate, so the success rate
strictly decreases across a rejected call whenever it was positive. -/
theorem c10_total_calls_counts_rejected (cb : CircuitBreaker) (now : ℤ) (b : Bool) :
    ((cb.execute now b).2.stats.totalCalls = cb.stats.totalCalls + 1) ∧
    (cb.state = .OPEN → now < cb.nextAttempt →
      0 < cb.stats.totalSuccesses → 0 < cb.stats.totalCalls →
      (∃ w, (cb.execute now b).1 = .rejected w) ∧
      (cb.execute now b).2.stats.totalSuccesses = cb.stats.totalSuccesses ∧
      successRate (cb.execute now b).2 < successRate cb) := by
  constructor
  · simp only [CircuitBreaker.execute]
    split
    · split
      · rfl
      · split
        · exact (onSuccess_stats_frame _ _).1
        · exact (onFailure_stats_frame _ _).1
    · split
      · exact (onSuccess_stats_frame _ _).1
      · exact (onFailure_stats_frame _ _).1
  · intro hs ht hsucc hcalls
    rw [execute_open_rejected cb now b hs ht]
    refine ⟨⟨_, rfl⟩, rfl, ?_⟩
    simp only [successRate]
    rw [if_pos (Nat.succ_pos cb.stats.totalCalls), if_pos hcalls]
    have hS : (0 : ℚ) < (cb.stats.totalSuccesses : ℚ) := by exact_mod_cast hsucc
    have hC : (0 : ℚ) < (cb.stats.totalCalls : ℚ) := by exact_mod_cast hcalls
    have hdiv : (cb.stats.totalSuccesses : ℚ) / ((cb.stats.totalCalls : ℚ) + 1) <
        (cb.stats.totalSuccesses : ℚ) / (cb.stats.totalCalls : ℚ) := by
      apply div_lt_div_of_pos_left hS hC
      linarith
    push_cast
    nlinarith [hdiv]

/-- Witness for C10: a breaker that is OPEN with 1 success out of 4 calls,
rejected again at time 5 before its next-attempt time 10. -/
theorem c10_total_calls_counts_rejected_witness :
    ((CircuitBreaker.execute
        ⟨3, 1000, 120000, .OPEN, 3, 1, 10, some 0, ⟨4, 3, 1, 1⟩⟩ 5 true).2.stats.totalCalls =
      (⟨3, 1000, 120000, .OPEN, 3, 1, 10, some 0, ⟨4, 3, 1, 1⟩⟩ :
        CircuitBreaker).stats.totalCalls + 1) ∧
    ((∃ w, (CircuitBreaker.execute
        ⟨3, 1000, 120000, .OPEN, 3, 1, 10, some 0, ⟨4, 3, 1, 1⟩⟩ 5 true).1 = .rejected w) ∧
      (CircuitBreaker.execute
        ⟨3, 1000, 120000, .OPEN, 3, 1, 10, some 0, ⟨4, 3, 1, 1⟩⟩ 5 true).2.stats.totalSuccesses =
        1 ∧
      successRate (CircuitBreaker.execute
        ⟨3, 1000, 120000, .OPEN, 3, 1, 10, some 0, ⟨4, 3, 1, 1⟩⟩ 5 true).2 <
        successRate ⟨3, 1000, 120000, .OPEN, 3, 1, 10, some 0, ⟨4, 3, 1, 1⟩⟩) := by
  have h := c10_total_calls_counts_rejected
    ⟨3, 1000, 120000, .OPEN, 3, 1, 10, some 0, ⟨4, 3, 1, 1⟩⟩ 5 true
  exact ⟨h.1, h.2 rfl (by decide) (by decide) (by decide)⟩

/-- Claim C2: starting from any well-formed deduplicator state with no
pending request under key `K`, a `dedupe(K, fn)` call creates promise
`p = nextId` and invokes `fn`; across any further events that do not settle
`p` (in particular any number of further `dedupe(K, _)` calls made while `p`
is unsettled, arbitrarily interleaved with other keys' traffic), `fn` is
invoked exactly once for `K` in total, every `dedupe(K, _)` caller of the
window receives the same promise `p`, the pending table holds exactly the
single entry `K ↦ p` throughout, and when `p` settles — with a success or an
error outcome `o` alike — every waiter observes that same outcome `o` and
the `K` entry is removed. -/
theorem c2_dedupe_exactly_once (s0 : DedupState) (K : String) (evs : List DEvent)
    (o : DOutcome) (hwf : DedupWF s0) (h0 : s0.pending K = none)
    (hns : ∀ e ∈ evs, isSettleOf s0.nextId e = false) :
    (dedupeCall s0 K).1 = s0.nextId ∧
    invCount (drun (dedupeCall s0 K).2 evs) K = invCount s0 K + 1 ∧
    (drun (dedupeCall s0 K).2 evs).pending K = some s0.nextId ∧
    (∀ q, (K, q) ∈ (drun (dedupeCall s0 K).2 evs).returned →
      (K, q) ∈ s0.returned ∨ q = s0.nextId) ∧
    (settle (drun (dedupeCall s0 K).2 evs) s0.nextId K o).results s0.nextId = some o ∧
    (settle (drun (dedupeCall s0 K).2 evs) s0.nextId K o).pending K = none := by
  have hres : (dedupeCall s0 K).1 = s0.nextId := by
    simp [dedupeCall, h0]
  have hpend1 : (dedupeCall s0 K).2.pending K = some s0.nextId := by
    simp [dedupeCall, h0]
  have hcnt1 : invCount (dedupeCall s0 K).2 K = invCount s0 K + 1 := by
    simp [dedupeCall, h0, invCount, List.filter_cons]
  have hret1 : (dedupeCall s0 K).2.returned = (K, s0.nextId) :: s0.returned := by
    simp [dedupeCall, h0]
  have hwf1 : DedupWF (dedupeCall s0 K).2 := dedupWF_call s0 K hwf
  have hw := window_run K s0.nextId evs (dedupeCall s0 K).2 hwf1 hpend1 hns
  have hwf2 : DedupWF (drun (dedupeCall s0 K).2 evs) := dedupWF_run evs _ hwf1
  have hguard := hwf2.1 K s0.nextId hw.1
  refine ⟨hres, hw.2.1.trans hcnt1, hw.1, ?_, ?_, ?_⟩
  · intro q hq
    rcases hw.2.2 q hq with hq1 | hq1
    · rw [hret1] at hq1
      rcases List.mem_cons.mp hq1 with hq2 | hq2
      · right
        injection hq2
      · exact Or.inl hq2
    · exact Or.inr hq1
  · rw [settle, if_pos hguard]
    simp
  · rw [settle, if_pos hguard]
    simp

/-- Witness for C2: three dedupe("k") callers (the initial one plus two more
while the first request is in flight) on a fresh deduplicator, settling with
outcome `ok 7`. -/
theorem c2_dedupe_exactly_once_witness :
    (dedupeCall initDedup "k").1 = 0 ∧
    invCount (drun (dedupeCall initDedup "k").2 [.call "k", .call "k"]) "k" =
      invCount initDedup "k" + 1 ∧
    (drun (dedupeCall initDedup "k").2 [.call "k", .call "k"]).pending "k" = some 0 ∧
    (∀ q, ("k", q) ∈ (drun (dedupeCall initDedup "k").2 [.call "k", .call "k"]).returned →
      ("k", q) ∈ initDedup.returned ∨ q = 0) ∧
    (settle (drun (dedupeCall initDedup "k").2 [.call "k", .call "k"]) 0 "k"
      (.ok 7)).results 0 = some (.ok 7) ∧
    (settle (drun (dedupeCall initDedup "k").2 [.call "k", .call "k"]) 0 "k"
      (.ok 7)).pending "k" = none :=
  c2_dedupe_exactly_once initDedup "k" [.call "k", .call "k"] (.ok 7)
    dedupWF_init rfl (by decide)

/-! ### Embedding-queue flush timing -/

lemma processLoop_full (s : EmbeddingQueue) (now : ℤ) (h1 : s.queue ≠ [])
    (h2 : s.queue.length ≤ s.batchSize) (fuel : ℕ) (hf : 1 ≤ fuel) :
    processLoop fuel s now =
      { s with queue := [], flushed := s.flushed ++ [(now, s.queue)] } := by
  cases fuel with
  | zero => omega
  | succ n =>
      rw [processLoop, if_neg h1]
      have htake : s.queue.take s.batchSize = s.queue := List.take_of_length_le h2
      have hdrop : s.queue.drop s.batchSize = [] := List.drop_eq_nil_of_le h2
      simp [htake, hdrop]

/-- Counterexample to claim C3 as stated: with `batchSize = 3, maxWait = 50`,
enqueuing at time 0 arms the timer for 50, but a second enqueue at time 40
clears and re-arms the timer for 90; at instant 50 — when the oldest item's
age reaches `maxWait` — nothing has been flushed, and the flush only happens
when the timer fires at 90, so the item enqueued at 0 waited 90 ms > 50 ms. -/
theorem c3_flush_timing_counterexample :
    (addItem (addItem (mkEmbeddingQueue 3 50) 0) 40).timer = some 90 ∧
    (addItem (addItem (mkEmbeddingQueue 3 50) 0) 40).flushed = [] ∧
    (fireTimer (addItem (addItem (mkEmbeddingQueue 3 50) 0) 40)).flushed =
      [(90, [0, 40])] ∧
    ¬ ((90 : ℤ) - 0 ≤ 50) := by decide

/-- Claim C3, amended: a flush is triggered immediately when an enqueue
brings the queue to the batch size; otherwise each enqueue clears and
re-arms the single flush timer for `maxWait` after that (most recent)
enqueue, and when the timer fires it flushes every queued item.  Hence the
`maxWait` bound is relative to the latest enqueue, not the oldest queued
item, and an item can wait longer than `maxWait` when later sub-batch-size
enqueues keep arriving. -/
theorem c3_flush_timing_amended (s : EmbeddingQueue) (t u : ℤ) :
    (s.queue.length + 1 < s.batchSize →
      (addItem s t).timer = some (t + s.maxWait) ∧
      (addItem s t).flushed = s.flushed ∧
      (addItem s t).queue = s.queue ++ [t]) ∧
    (s.queue.length + 1 = s.batchSize →
      (addItem s t).flushed = s.flushed ++ [(t, s.queue ++ [t])] ∧
      (addItem s t).queue = [] ∧
      (addItem s t).timer = none) ∧
    (s.timer = some u → s.queue ≠ [] → s.queue.length < s.batchSize →
      (fireTimer s).flushed = s.flushed ++ [(u, s.queue)] ∧
      (fireTimer s).queue = []) := by
  refine ⟨?_, ?_, ?_⟩
  · intro h
    have hlt : ¬ s.batchSize ≤ s.queue.length + 1 := by omega
    simp [addItem, scheduleProcessing, hlt]
  · intro h
    have hcond : s.batchSize ≤ s.queue.length + 1 := by omega
    have hfull := processLoop_full
      { s with queue := s.queue ++ [t], timer := none } t (by simp)
      (by simp; omega) (s.queue.length + 1) (by omega)
    simp only [addItem, scheduleProcessing, processQueue]
    simp at hfull
    simp [hcond, hfull]
  · intro ht hq hlen
    have hfull := processLoop_full { s with timer := none } u hq
      (le_of_lt hlen) s.queue.length (List.length_pos.mpr hq)
    simp only [fireTimer, ht, processQueue]
    simp at hfull
    simp [hfull]

/-- Witness for the amended C3: a timer re-arm on a sub-batch enqueue, an
immediate flush when the batch fills, and a timer-fire flush. -/
theorem c3_flush_timing_amended_witness :
    ((addItem (addItem (mkEmbeddingQueue 3 50) 0) 40).timer = some (40 + 50) ∧
     (addItem (addItem (mkEmbeddingQueue 3 50) 0) 40).flushed = [] ∧
     (addItem (addItem (mkEmbeddingQueue 3 50) 0) 40).queue = [0] ++ [40]) ∧
    ((addItem (addItem (addItem (mkEmbeddingQueue 3 50) 0) 40) 41).flushed =
       [] ++ [(41, [0, 40] ++ [41])] ∧
     (addItem (addItem (addItem (mkEmbeddingQueue 3 50) 0) 40) 41).queue = [] ∧
     (addItem (addItem (addItem (mkEmbeddingQueue 3 50) 0) 40) 41).timer = none) ∧
    ((fireTimer (addItem (addItem (mkEmbeddingQueue 3 50) 0) 40)).flushed =
       [] ++ [(90, [0, 40])] ∧
     (fireTimer (addItem (addItem (mkEmbeddingQueue 3 50) 0) 40)).queue = []) :=
  ⟨(c3_flush_timing_amended (addItem (mkEmbeddingQueue 3 50) 0) 40 0).1 (by decide),
   (c3_flush_timing_amended (addItem (addItem (mkEmbeddingQueue 3 50) 0) 40) 41 0).2.1
     (by decide),
   (c3_flush_timing_amended (addItem (addItem (mkEmbeddingQueue 3 50) 0) 40) 0 90).2.2
     (by decide) (by decide) (by decide)⟩

/-! ### Adaptive TTL bounds and access-pattern tracking -/

/-- Claim C4: with the searches namespace base TTL of 300 s and the adaptive
config (minMultiplier 0.5, maxMultiplier 3.0), a set without explicit TTL
gets `round(300 * clamp(1 + log10(frequency+1) * 0.5, 0.5, 3.0))`, which for
every access pattern — whatever value `Math.log10` returns — lies within
[150 s, 900 s], and a key with no recorded access pattern (or zero recorded
frequency) gets exactly the base TTL of 300 s (multiplier 1). -/
theorem c4_adaptive_ttl_bounds (log10 : ℚ → ℚ) (pat : AccessPattern) :
    getAdaptiveTTL log10 300 none = 300 ∧
    (150 ≤ getAdaptiveTTL log10 300 (some pat) ∧
     getAdaptiveTTL log10 300 (some pat) ≤ 900) := by
  refine ⟨rfl, ?_⟩
  simp only [getAdaptiveTTL]
  split_ifs with hf
  · constructor <;> norm_num
  · set m := 1 + log10 (pat.frequency + 1) * (1 / 2) with hm
    set b := max adaptiveMinMultiplier (min adaptiveMaxMultiplier m) with hb
    have hb1 : (1 / 2 : ℚ) ≤ b := le_max_left _ _
    have hb2 : b ≤ (3 : ℚ) := by
      apply max_le
      · norm_num [adaptiveMinMultiplier]
      · simp [adaptiveMaxMultiplier]
    have h1 : (150 : ℚ) ≤ 300 * b := by linarith
    have h2 : (300 : ℚ) * b ≤ 900 := by linarith
    constructor
    · rw [jsRound, Int.le_floor]
      push_cast
      linarith
    · rw [jsRound]
      have hlt : ⌊((300 : ℤ) : ℚ) * b + 1 / 2⌋ < 901 := by
        rw [Int.floor_lt]
        push_cast
        linarith
      omega

/-- Claim C7 evaluation at the failing input: the key is first accessed at
time 0 and again two hours later (7 200 000 ms).  Because the `created`
property is never assigned, `trackAccess` computes `hoursSinceCreation = 0`
and stores frequency `2 = count`, whereas the claimed formula
`count / max(hours since first seen, 1) = 2 / max(2, 1)` gives 1.  The decay
sweep itself does multiply surviving frequencies by 0.95 as claimed. -/
theorem c7_frequency_ignores_age :
    lookupPattern
        (trackAccess (trackAccess [] "searches:k" 0) "searches:k" 7200000)
        "searches:k" =
      some { count := 2, lastAccess := 7200000, frequency := 2, created := none } ∧
    ((2 : ℚ) / max ((7200000 - 0 : ℚ) / 3600000) 1 = 1) ∧
    ((2 : ℚ) ≠ 1) ∧
    updatePatterns
        [("searches:k", { count := 2, lastAccess := 7200000, frequency := 2,
                          created := none })] 7300000 =
      [("searches:k", { count := 2, lastAccess := 7200000, frequency := 19 / 10,
                        created := none })] := by
  refine ⟨?_, by norm_num, by norm_num, ?_⟩
  · have e1 : trackAccess [] "searches:k" 0 =
        [("searches:k", { count := 1, lastAccess := 0, frequency := 1,
                          created := none })] := by
      simp [trackAccess, lookupPattern, setPattern]
    rw [e1]
    simp [trackAccess, lookupPattern, setPattern]
  · norm_num [updatePatterns, adaptiveDecayFactor, List.filterMap_cons]

/-! ### Metrics retention -/

/-- Counterexample to claim C8 as stated: a sample recorded at time 0 is
still held once the clock passes 24 h, because pruning only runs inside
`addMetric` for the series being written — there is no background sweep, and
time passing does not change the store.  At clock time 86400001 the store
violates the claimed invariant. -/
theorem c8_retention_counterexample :
    ¬ retentionOK (addMetric (fun _ => none) "request_duration" 1 0 0) 86400001 := by
  intro h
  have h1 : addMetric (fun _ => none) "request_duration" 1 0 0 "request_duration" =
      some [⟨1, 0⟩] := by
    simp [addMetric, cleanupOldData, retention24h]
  have h2 := h "request_duration" [⟨1, 0⟩] h1 ⟨1, 0⟩ (by simp)
  simp [retention24h] at h2

lemma cleanupOldData_self (ts : String → Option (List MetricPoint))
    (key : String) (now : ℤ) :
    cleanupOldData ts key now key =
      (ts key).map (List.filter (fun p => decide (now - retention24h < p.timestamp))) := by
  unfold cleanupOldData
  cases h : ts key with
  | none => simp [h]
  | some data =>
      simp only [Option.map_some]
      split
      case isTrue => simp
      case isFalse h2 =>
        rw [h]
        have hall := List.filter_length_eq_length.mp
          (le_antisymm (List.length_filter_le _ _) (not_lt.mp h2))
        simp [List.filter_eq_self.mpr hall]

lemma cleanupOldData_other (ts : String → Option (List MetricPoint))
    (key : String) (now : ℤ) (k : String) (hk : k ≠ key) :
    cleanupOldData ts key now k = ts k := by
  unfold cleanupOldData
  cases h : ts key with
  | none => rfl
  | some data =>
      dsimp only
      split
      case isTrue => simp [hk]
      case isFalse => rfl

/-- Claim C8, amended: pruning is per series and add-triggered, not a
background sweep — immediately after `addMetric(name, v, ts)` at clock time
`now`, the `name` series holds no sample with timestamp at or below
`now - 24h`, while every other series is left untouched (and may therefore
retain arbitrarily old samples until it is written again). -/
theorem c8_retention_amended (ts : String → Option (List MetricPoint))
    (name : String) (v tstamp now : ℤ) :
    (∀ data, addMetric ts name v tstamp now name = some data →
      ∀ p ∈ data, now - retention24h < p.timestamp) ∧
    (∀ k, k ≠ name → addMetric ts name v tstamp now k = ts k) := by
  constructor
  · intro data hdata p hp
    simp only [addMetric] at hdata
    rw [cleanupOldData_self] at hdata
    simp only [if_pos rfl, Option.map_some] at hdata
    injection hdata with hdata
    subst hdata
    simpa using List.of_mem_filter hp
  · intro k hk
    simp only [addMetric]
    rw [cleanupOldData_other _ _ _ _ hk]
    simp [if_neg hk]

/-- Witness for the amended C8: an empty store written once at time 5; the
fresh sample is inside the horizon and the untouched series stays empty. -/
theorem c8_retention_amended_witness :
    (∀ data, addMetric (fun _ => none) "m" 1 5 5 "m" = some data →
      ∀ p ∈ data, 5 - retention24h < p.timestamp) ∧
    (∀ k, k ≠ "m" → addMetric (fun _ => none) "m" 1 5 5 k = none) :=
  (c8_retention_amended (fun _ => none) "m" 1 5 5)

/-! ### Rate limiting and retries -/

lemma checkRateLimit_saturated (lim : RateLimiter) (now : ℤ)
    (h1 : ¬ lim.resetTime < now) (h2 : lim.maxRequests ≤ lim.requests) :
    checkRateLimit lim now = (lim, some (intCeilDiv (lim.resetTime - now) 1000)) := by
  simp [checkRateLimit, h1, h2]

lemma attemptOnce_saturated (op : ℕ → Except JsErrorShape ℕ) (lim : RateLimiter)
    (now : ℤ) (oc : ℕ) (h1 : ¬ lim.resetTime < now)
    (h2 : lim.maxRequests ≤ lim.requests) :
    attemptOnce op lim now oc =
      (.error (.rateLimit (intCeilDiv (lim.resetTime - now) 1000)), lim, oc) := by
  rw [attemptOnce, checkRateLimit_saturated lim now h1 h2]

lemma ewrGo_saturated_step (op : ℕ → Except JsErrorShape ℕ) (r attempt : ℕ)
    (lim : RateLimiter) (t : ℤ) (oc a : ℕ) (h1 : ¬ lim.resetTime < t)
    (h2 : lim.maxRequests ≤ lim.requests) :
    ewrGo op (r + 1) attempt lim t oc a =
      ewrGo op r (attempt + 1) lim (t + 1000 * 2 ^ attempt) oc (a + 1) := by
  rw [ewrGo, attemptOnce_saturated op lim t oc h1 h2]
  simp [retryCondition]

lemma ewrGo_saturated_last (op : ℕ → Except JsErrorShape ℕ) (attempt : ℕ)
    (lim : RateLimiter) (t : ℤ) (oc a : ℕ) (h1 : ¬ lim.resetTime < t)
    (h2 : lim.maxRequests ≤ lim.requests) :
    ewrGo op 0 attempt lim t oc a =
      ⟨.error (.rateLimit (intCeilDiv (lim.resetTime - t) 1000)), lim, oc, a + 1⟩ := by
  rw [ewrGo, attemptOnce_saturated op lim t oc h1 h2]

/-- Counterexample to claim C5 as stated: with the cohere limiter saturated
(100 of 100 requests used, window resets at 60 s) a call at t = 0 is
rejected by the rate-limit check before invoking the operation — but the
rejection is a plain Error without a `response` property, so
`retryCondition` classifies it as retryable and the loop performs all 3
retries (4 attempts in total, with backoff reaching t = 7 s) before
propagating the rate-limit error (naming the then-remaining 53 s wait).
The claim says the rejection consumes no retry attempt; the code consumes
all of them. -/
theorem c5_rate_limit_retry_counterexample :
    executeWithRetryCohere ⟨100, 60000, 100⟩ 0 (fun _ => .ok 0) =
      ⟨.error (.rateLimit 53), ⟨100, 60000, 100⟩, 0, 4⟩ ∧
    ¬ ((4 : ℕ) ≤ 1) := by decide

/-- Claim C5, amended: while the rolling counter has reached the ceiling,
each attempt fails fast with the rate-limit error naming the remaining wait
and without invoking the wrapped operation — but the error is treated as
retryable, so the executor consumes every retry attempt (4 attempts in all
when the window outlasts the total 7 s backoff) before the rate-limit error
propagates; it does not stop after the first rejection. -/
theorem c5_rate_limit_amended (lim : RateLimiter) (t : ℤ)
    (op : ℕ → Except JsErrorShape ℕ)
    (hsat : lim.maxRequests ≤ lim.requests) (hwin : t + 7000 ≤ lim.resetTime) :
    (executeWithRetryCohere lim t op).opCalls = 0 ∧
    (executeWithRetryCohere lim t op).attempts = 4 ∧
    (executeWithRetryCohere lim t op).limiter = lim ∧
    ∃ w, (executeWithRetryCohere lim t op).result = .error (.rateLimit w) := by
  have e1 : executeWithRetryCohere lim t op =
      ewrGo op 2 1 lim (t + 1000 * 2 ^ 0) 0 1 := by
    rw [executeWithRetryCohere, ewrGo_saturated_step op 2 0 lim t 0 0 (by omega) hsat]
  have e2 : ewrGo op 2 1 lim (t + 1000 * 2 ^ 0) 0 1 =
      ewrGo op 1 2 lim (t + 1000 * 2 ^ 0 + 1000 * 2 ^ 1) 0 2 :=
    ewrGo_saturated_step op 1 1 lim _ 0 1 (by norm_num; omega) hsat
  have e3 : ewrGo op 1 2 lim (t + 1000 * 2 ^ 0 + 1000 * 2 ^ 1) 0 2 =
      ewrGo op 0 3 lim (t + 1000 * 2 ^ 0 + 1000 * 2 ^ 1 + 1000 * 2 ^ 2) 0 3 :=
    ewrGo_saturated_step op 0 2 lim _ 0 2 (by norm_num; omega) hsat
  have e4 : ewrGo op 0 3 lim (t + 1000 * 2 ^ 0 + 1000 * 2 ^ 1 + 1000 * 2 ^ 2) 0 3 =
      ⟨.error (.rateLimit (intCeilDiv
        (lim.resetTime - (t + 1000 * 2 ^ 0 + 1000 * 2 ^ 1 + 1000 * 2 ^ 2)) 1000)),
       lim, 0, 4⟩ :=
    ewrGo_saturated_last op 3 lim _ 0 3 (by norm_num; omega) hsat
  rw [e1, e2, e3, e4]
  exact ⟨rfl, rfl, rfl, _, rfl⟩

/-- Witness for the amended C5 at the saturated limiter of the
counterexample. -/
theorem c5_rate_limit_amended_witness :
    (executeWithRetryCohere ⟨100, 60000, 100⟩ 0 (fun _ => .ok 0)).opCalls = 0 ∧
    (executeWithRetryCohere ⟨100, 60000, 100⟩ 0 (fun _ => .ok 0)).attempts = 4 ∧
    (executeWithRetryCohere ⟨100, 60000, 100⟩ 0 (fun _ => .ok 0)).limiter =
      ⟨100, 60000, 100⟩ ∧
    ∃ w, (executeWithRetryCohere ⟨100, 60000, 100⟩ 0 (fun _ => .ok 0)).result =
      .error (.rateLimit w) :=
  c5_rate_limit_amended ⟨100, 60000, 100⟩ 0 (fun _ => .ok 0) (by decide) (by decide)

/-! ### Circuit breaker vs. retry composition -/

/-- Counterexample to claim C6 as stated: in the `/api/mcp/*` handler the
breaker's `execute` wraps the whole `executeWithRetry` chain, so a logical
call whose operation fails transiently on all 4 attempts (k = 4 failed
attempts) increments the breaker's consecutive-failure count by 1, not by
k = 4. -/
theorem c6_breaker_per_attempt_counterexample :
    (mcpHandlerCall (mkCircuitBreaker 5 30000 120000 0) 0
      (fun _ => .error .noResponse)).attempts = 4 ∧
    (mcpHandlerCall (mkCircuitBreaker 5 30000 120000 0) 0
      (fun _ => .error .noResponse)).breaker.failures = 1 ∧
    ¬ ((mcpHandlerCall (mkCircuitBreaker 5 30000 120000 0) 0
      (fun _ => .error .noResponse)).breaker.failures =
        (mkCircuitBreaker 5 30000 120000 0).failures + 4) := by decide

/-- Claim C6, amended: the breaker wraps the entire retry loop, seeing one
combined outcome per logical call — when the breaker is CLOSED and admits
the call, a logical call whose retry chain ultimately fails increments the
consecutive-failure count by exactly 1 (however many attempts failed
inside), and one that ultimately succeeds resets it to 0. -/
theorem c6_breaker_wraps_retries (cb : CircuitBreaker) (now : ℤ)
    (op : ℕ → Except JsErrorShape ℕ) (hclosed : cb.state = .CLOSED) :
    (exceptOk (executeWithRetryMcp now op).1 = false →
      (mcpHandlerCall cb now op).breaker.failures = cb.failures + 1) ∧
    (exceptOk (executeWithRetryMcp now op).1 = true →
      (mcpHandlerCall cb now op).breaker.failures = 0) := by
  constructor
  · intro hf
    simp only [mcpHandlerCall, CircuitBreaker.execute, hf]
    simp only [hclosed]
    simp [onFailure_failures]
  · intro hf
    simp only [mcpHandlerCall, CircuitBreaker.execute, hf]
    simp only [hclosed]
    simp
    exact (onSuccess_state_closed _ now (Or.inl rfl)).2

/-- Witness for the amended C6: a fresh mcp breaker, an always-transiently
failing operation (increment by 1), and an immediately succeeding one
(reset to 0). -/
theorem c6_breaker_wraps_retries_witness :
    ((mcpHandlerCall (mkCircuitBreaker 5 30000 120000 0) 0
        (fun _ => .error .noResponse)).breaker.failures =
      (mkCircuitBreaker 5 30000 120000 0).failures + 1) ∧
    ((mcpHandlerCall (mkCircuitBreaker 5 30000 120000 0) 0
        (fun _ => .ok 3)).breaker.failures = 0) :=
  ⟨(c6_breaker_wraps_retries (mkCircuitBreaker 5 30000 120000 0) 0
      (fun _ => .error .noResponse) rfl).1 (by decide),
   (c6_breaker_wraps_retries (mkCircuitBreaker 5 30000 120000 0) 0
      (fun _ => .ok 3) rfl).2 (by decide)⟩

/-! ### Connection pool round-robin -/

/-- Claim C9: for a pool of size 2 under sequential acquire/release the
acquired slot indices are 0, 1, 0 (round-robin wrap), and for any pool state
with every slot in use, `getConnection` still returns — without blocking or
queueing — the slot at the round-robin cursor with a no-op release
(non-exclusive), advancing the cursor. -/
theorem c9_pool_round_robin :
    ((getConnection (mkWPool 2 0) 1).1 = (0, true) ∧
     (getConnection (releaseConnection (getConnection (mkWPool 2 0) 1).2
       (getConnection (mkWPool 2 0) 1).1.1) 2).1 = (1, true) ∧
     (getConnection (releaseConnection
       (getConnection (releaseConnection (getConnection (mkWPool 2 0) 1).2
         (getConnection (mkWPool 2 0) 1).1.1) 2).2
       (getConnection (releaseConnection (getConnection (mkWPool 2 0) 1).2
         (getConnection (mkWPool 2 0) 1).1.1) 2).1.1) 3).1 = (0, true)) ∧
    (∀ s now, s.pool ≠ [] → (∀ c ∈ s.pool, c.inUse = true) →
      (getConnection s now).1 = (s.currentIndex, false) ∧
      (getConnection s now).2.currentIndex = (s.currentIndex + 1) % s.pool.length) := by
  constructor
  · refine ⟨by decide, by decide, by decide⟩
  · intro s now hne hall
    have hlen : 0 < s.pool.length := List.length_pos.mpr hne
    have hfind : (List.range s.pool.length).find?
        (fun i => (((s.pool.get? ((s.currentIndex + i) % s.pool.length)).map
          (fun c => !c.inUse)).getD false)) = none := by
      apply List.find?_eq_none.mpr
      intro i hi
      have hmod : (s.currentIndex + i) % s.pool.length < s.pool.length :=
        Nat.mod_lt _ hlen
      have hmem : (s.pool.get ⟨(s.currentIndex + i) % s.pool.length, hmod⟩).inUse = true :=
        hall _ (s.pool.get_mem _ hmod)
      simp only [List.get?_eq_get hmod, Option.map_some, Option.getD_some]
      simpa using hmem
    simp only [getConnection]
    rw [hfind]
    exact ⟨rfl, rfl⟩

/-- Witness for C9's saturated clause: a pool of two in-use slots with the
cursor at 1 hands out slot 1 non-exclusively and wraps the cursor to 0. -/
theorem c9_pool_round_robin_witness :
    (getConnection ⟨[⟨true, 0, 0⟩, ⟨true, 0, 0⟩], 1, 5⟩ 7).1 = (1, false) ∧
    (getConnection ⟨[⟨true, 0, 0⟩, ⟨true, 0, 0⟩], 1, 5⟩ 7).2.currentIndex =
      (1 + 1) % 2 :=
  c9_pool_round_robin.2 ⟨[⟨true, 0, 0⟩, ⟨true, 0, 0⟩], 1, 5⟩ 7
    (by decide) (by decide)

end Spec2Proof
